import Mathlib

/-!
# Verification of the tv_streamer playback pipeline and scheduling engine

Shallow embedding of the queue / schedule / history state machine of the
`tv_streamer` repository.  The relational store (XORM over four tables) is
modelled as explicit lists of rows carried in a `DB` record; each Go function
that the claims mention is translated into a pure Lean function over `DB`.
Row order in each list is insertion order; `Get` with an `OrderBy` clause is
modelled by a fold that returns the first row attaining the minimal key, and
autoincrement primary keys are modelled by explicit counters in `DB`.
-/

namespace TvStreamer

/-- A row of the `availible_files` table (`models.AvailableFiles`). -/
structure AvailableFiles where
  fileID : String
  filePath : String
  fileSize : Int
  videoLength : Int
  addedTime : Int
  ffprobeData : String
deriving Repr, DecidableEq

/-- A row of the `schedule` table (`models.Schedule`). -/
structure Schedule where
  id : Int
  fileID : String
  filePath : String
  schedulePosition : Int
  isCurrent : Int
  addedAt : Int
deriving Repr, DecidableEq

/-- A row of the `video_queue` table (`models.VideoQueue`). -/
structure VideoQueue where
  id : Int
  fileID : String
  filePath : String
  addedAt : Int
  played : Int
  playedAt : Int
  queuePosition : Int
  isAd : Int
deriving Repr, DecidableEq

/-- A row of the `play_history` table (`models.PlayHistory`). -/
structure PlayHistory where
  id : Int
  fileID : String
  filename : String
  filePath : String
  startedAt : Int
  finishedAt : Int
  durationSeconds : Int
  isAd : Int
  skipRequested : Int
deriving Repr, DecidableEq

/-- `(*models.Schedule).MarkAsCurrent`. -/
def Schedule.markAsCurrent (s : Schedule) : Schedule :=
  { s with isCurrent := 1 }

/-- `(*models.Schedule).UnmarkAsCurrent`. -/
def Schedule.unmarkAsCurrent (s : Schedule) : Schedule :=
  { s with isCurrent := 0 }

/-- `(*models.VideoQueue).MarkAsPlayed`: sets `played = 1` and the
`played_at` timestamp (`time.Now().Unix()` is passed in as `now`). -/
def VideoQueue.markAsPlayed (now : Int) (v : VideoQueue) : VideoQueue :=
  { v with played := 1, playedAt := now }

/-- `(*models.PlayHistory).MarkAsFinished`: sets `finished_at = now` and
`duration_seconds = finished_at - started_at`. -/
def PlayHistory.markAsFinished (now : Int) (h : PlayHistory) : PlayHistory :=
  { h with finishedAt := now, durationSeconds := now - h.startedAt }

/-- `(*models.PlayHistory).MarkAsSkipped`: sets `skip_requested = 1` and then
finishes the record. -/
def PlayHistory.markAsSkipped (now : Int) (h : PlayHistory) : PlayHistory :=
  PlayHistory.markAsFinished now { h with skipRequested := 1 }

/-- The four row sets of the relational store together with the autoincrement
counters of the three tables that use an `autoincr` primary key. -/
structure DB where
  availFiles : List AvailableFiles
  schedule : List Schedule
  queue : List VideoQueue
  history : List PlayHistory
  nextScheduleID : Int
  nextQueueID : Int
  nextHistoryID : Int
deriving Repr, DecidableEq

/-- Ambient effects used by the Go code, passed in explicitly: `md5hex`
abstracts `fmt.Sprintf("%x", md5.Sum(path))`, `absClean` abstracts
`NormalizeFilePath` (`filepath.Abs` + `filepath.Clean`), `base` abstracts
`filepath.Base`, `disk` is the set of paths for which `os.Stat` succeeds,
and `now` is `time.Now().Unix()`. -/
structure Env where
  md5hex : String → String
  absClean : String → String
  base : String → String
  disk : List String
  now : Int

/-- Errors returned by the embedded functions, one constructor per
distinguishable `fmt.Errorf` site reachable in the model. -/
inductive StreamError where
  | fileMissing
  | notCataloged
  | notFound
  | positionNegative
  | noItemsProvided
  | noVideosAvailable
  | schedulePopulationFailed
  | scheduleStillEmpty
  | scheduledFileMissing
  | feederChannelTimeout
  | videoSkipped
  | feedError
  | nothingPlaying
  | skipSignalTimeout
deriving Repr, DecidableEq

instance : DecidableEq (Except StreamError DB) := fun a b =>
  match a, b with
  | .ok x, .ok y => decidable_of_iff (x = y) (by simp)
  | .error x, .error y => decidable_of_iff (x = y) (by simp)
  | .ok _, .error _ => isFalse (by simp)
  | .error _, .ok _ => isFalse (by simp)

/-- `SELECT COALESCE(MAX(queue_position), 0) FROM video_queue`. -/
def maxQueuePos (rows : List VideoQueue) : Int :=
  match rows with
  | [] => 0
  | r :: rs => rs.foldl (fun m x => max m x.queuePosition) r.queuePosition

/-- `AddToQueue(filepath, isAd)` from `modules/streamer/models/schedule.go`:
normalize the path, check the file exists on disk, derive the file id, require
it to be cataloged in `availible_files`, then insert at
`max(queue_position)+1`. -/
def addToQueue (env : Env) (db : DB) (path : String) (isAd : Bool) :
    Except StreamError DB :=
  let path := env.absClean path
  if path ∈ env.disk then
    let fileID := env.md5hex path
    if db.availFiles.any (fun f => f.fileID == fileID) then
      let nextPos := maxQueuePos db.queue + 1
      let item : VideoQueue :=
        { id := db.nextQueueID, fileID := fileID, filePath := path,
          addedAt := env.now, played := 0, playedAt := 0,
          queuePosition := nextPos, isAd := if isAd then 1 else 0 }
      .ok { db with queue := db.queue ++ [item],
                    nextQueueID := db.nextQueueID + 1 }
    else .error .notCataloged
  else .error .fileMissing

/-- `InjectAd(filepath)`: after the same validation as `AddToQueue`, shift the
`queue_position` of every pending (`played = 0`) row up by one and insert the
ad at position `0`. -/
def injectAd (env : Env) (db : DB) (path : String) : Except StreamError DB :=
  let path := env.absClean path
  if path ∈ env.disk then
    let fileID := env.md5hex path
    if db.availFiles.any (fun f => f.fileID == fileID) then
      let shifted := db.queue.map (fun r =>
        if r.played == 0 then { r with queuePosition := r.queuePosition + 1 }
        else r)
      let adItem : VideoQueue :=
        { id := db.nextQueueID, fileID := fileID, filePath := path,
          addedAt := env.now, played := 0, playedAt := 0,
          queuePosition := 0, isAd := 1 }
      .ok { db with queue := shifted ++ [adItem],
                    nextQueueID := db.nextQueueID + 1 }
    else .error .notCataloged
  else .error .fileMissing

/-- `ClearPlayedFromQueue()`: `DELETE FROM video_queue WHERE played = 1`,
returning the number of deleted rows. -/
def clearPlayedFromQueue (db : DB) : Int × DB :=
  ((db.queue.filter (fun r => r.played == 1)).length,
   { db with queue := db.queue.filter (fun r => !(r.played == 1)) })

/-- `Get` with `OrderBy("schedule_position ASC")`: the first row (in table row
order) attaining the minimal `schedule_position`, or `none` on an empty set. -/
def firstByPos? : List Schedule → Option Schedule
  | [] => none
  | r :: rs =>
    match firstByPos? rs with
    | none => some r
    | some b => if b.schedulePosition < r.schedulePosition then some b else some r

/-- `Where("schedule_position > ?", p)` followed by
`OrderBy("schedule_position ASC").Get`. -/
def firstAfter? (rows : List Schedule) (p : Int) : Option Schedule :=
  firstByPos? (rows.filter (fun r => p < r.schedulePosition))

/-- `Where("is_current = ?", 1).Cols("is_current").Update(IsCurrent: 0)`. -/
def unmarkAllCurrent (rows : List Schedule) : List Schedule :=
  rows.map (fun r => if r.isCurrent == 1 then { r with isCurrent := 0 } else r)

/-- `ID(id).Cols("is_current").Update(...)` with `IsCurrent = 1`. -/
def markCurrentByID (rows : List Schedule) (i : Int) : List Schedule :=
  rows.map (fun r => if r.id == i then { r with isCurrent := 1 } else r)

/-- `GetNextFromSchedule()` from `modules/streamer/schedule.go`: the stateful
cyclic advance over the schedule table.  Returns the chosen row (already
marked current, as the Go code returns `nextItem` after `MarkAsCurrent`)
together with the updated table. -/
def getNextFromSchedule (rows : List Schedule) :
    Option Schedule × List Schedule :=
  match rows.find? (fun r => r.isCurrent == 1) with
  | some current =>
    match firstAfter? rows current.schedulePosition with
    | some next =>
      (some next.markAsCurrent, markCurrentByID (unmarkAllCurrent rows) next.id)
    | none =>
      match firstByPos? rows with
      | some first =>
        (some first.markAsCurrent,
         markCurrentByID (unmarkAllCurrent rows) first.id)
      | none => (none, rows)
  | none =>
    match firstByPos? rows with
    | some first => (some first.markAsCurrent, markCurrentByID rows first.id)
    | none => (none, rows)

/-- `RemoveFromScheduleByID(scheduleID)`: look the row up, delete it, then
decrement `schedule_position` of every row whose position is greater than the
deleted one. -/
def removeFromScheduleByID (db : DB) (scheduleID : Int) :
    Except StreamError DB :=
  match db.schedule.find? (fun r => r.id == scheduleID) with
  | none => .error .notFound
  | some item =>
    let deletedPosition := item.schedulePosition
    let remaining := db.schedule.filter (fun r => !(r.id == scheduleID))
    let repacked := remaining.map (fun r =>
      if deletedPosition < r.schedulePosition then
        { r with schedulePosition := r.schedulePosition - 1 }
      else r)
    .ok { db with schedule := repacked }

/-- `UpdateSchedulePosition(scheduleID, newPosition)`: reject a negative
position, no-op when the raw requested position equals the current one, clamp
a position beyond the end down to `count - 1`, shift the rows between the old
and the new position by ±1 and finally write the moved row's new position. -/
def updateSchedulePosition (db : DB) (scheduleID : Int) (newPosition : Int) :
    Except StreamError DB :=
  if newPosition < 0 then .error .positionNegative
  else
    match db.schedule.find? (fun r => r.id == scheduleID) with
    | none => .error .notFound
    | some item =>
      let oldPosition := item.schedulePosition
      if oldPosition == newPosition then .ok db
      else
        let totalCount : Int := db.schedule.length
        let newPosition :=
          if totalCount ≤ newPosition then totalCount - 1 else newPosition
        let shifted :=
          if newPosition < oldPosition then
            db.schedule.map (fun r =>
              if newPosition ≤ r.schedulePosition ∧
                  r.schedulePosition < oldPosition then
                { r with schedulePosition := r.schedulePosition + 1 }
              else r)
          else
            db.schedule.map (fun r =>
              if oldPosition < r.schedulePosition ∧
                  r.schedulePosition ≤ newPosition then
                { r with schedulePosition := r.schedulePosition - 1 }
              else r)
        let final := shifted.map (fun r =>
          if r.id == scheduleID then { r with schedulePosition := newPosition }
          else r)
        .ok { db with schedule := final }

/-- `BulkReorderSchedule(orderMap)`: inside one transaction, validate that
every schedule id exists, reject a negative target position, and otherwise set
each named row's `schedule_position` to exactly the value in the map.  A
rollback leaves the store untouched, so every error path returns the input
state unchanged.  The Go `map[int64]int` is passed as an association list;
its keys are distinct in Go. -/
def bulkReorderSchedule (db : DB) (orderMap : List (Int × Int)) :
    Except StreamError DB :=
  if orderMap.isEmpty then .error .noItemsProvided
  else if orderMap.any (fun p => db.schedule.all (fun r => !(r.id == p.1))) then
    .error .notFound
  else if orderMap.any (fun p => p.2 < 0) then .error .positionNegative
  else
    let applied := orderMap.foldl (fun rows p =>
      rows.map (fun r =>
        if r.id == p.1 then { r with schedulePosition := p.2 } else r))
      db.schedule
    .ok { db with schedule := applied }

/-- The density invariant of §3 of the spec: the schedule positions are
exactly `0, 1, …, n-1` for `n` the number of rows (as a multiset). -/
def densePositions (rows : List Schedule) : Prop :=
  (rows.map Schedule.schedulePosition).Perm
    ((List.range rows.length).map (fun k : Nat => (k : Int)))

instance (rows : List Schedule) : Decidable (densePositions rows) := by
  unfold densePositions; infer_instance

/-- The fields of `PersistentPlayer` that the play-step mutates: the
"currently playing" pointer and its open history record. -/
structure PlayerState where
  currentFile : Option VideoQueue
  currentHistory : Option PlayHistory
deriving Repr, DecidableEq

/-- Resolution of the suspension points of one play-step: which of the
concurrent events fires.  `feederBusy` is the 5-second timeout sending the
request to the feeder channel; `skip` means the skip signal wins the race in
`playVideo`; `failure` is any error delivered on the feed's `Done` channel
(missing file, broken pipe, feed timeout); `success` a completed feed. -/
inductive FeedOutcome where
  | success
  | failure
  | feederBusy
  | skip
deriving Repr, DecidableEq

/-- The row minimal under the `(queue_position, id)` lexicographic order
(first in table order on a full tie). -/
def minPending? : List VideoQueue → Option VideoQueue
  | [] => none
  | r :: rs =>
    match minPending? rs with
    | none => some r
    | some b =>
      if b.queuePosition < r.queuePosition ∨
          (b.queuePosition = r.queuePosition ∧ b.id < r.id) then some b
      else some r

/-- `getNextVideo()`: `Where("played = ?", 0)` with
`OrderBy("queue_position ASC, id ASC")` — the first pending row under the
(position, id) lexicographic order. -/
def nextPending? (rows : List VideoQueue) : Option VideoQueue :=
  minPending? (rows.filter (fun r => r.played == 0))

/-- `ID(h.id)` update of the history row with the given record's columns. -/
def updateHistoryByID (rows : List PlayHistory) (h : PlayHistory) :
    List PlayHistory :=
  rows.map (fun x => if x.id == h.id then h else x)

/-- `ID(v.id)` update of the queue row with the given record's columns. -/
def updateQueueByID (rows : List VideoQueue) (v : VideoQueue) :
    List VideoQueue :=
  rows.map (fun x => if x.id == v.id then v else x)

/-- Result of one `playVideo` call: the error the Go function returns (if
any) together with the store and player state it leaves behind. -/
structure PlayResult where
  err : Option StreamError
  db : DB
  ps : PlayerState
deriving Repr, DecidableEq

/-- `PersistentPlayer.playVideo(video)`: insert a history record with
`started_at = now`, publish it as the current file/history, send the feed
request (which can time out), then race the skip signal against the feed's
completion.  On skip or success the history is finalized, the queue row is
marked played and the current pointers are cleared; on a feed failure the
error is returned with the pointers still set (the loop's failure path
finalizes them). -/
def playVideo (env : Env) (db : DB) (video : VideoQueue)
    (outcome : FeedOutcome) : PlayResult :=
  let history : PlayHistory :=
    { id := db.nextHistoryID, fileID := video.fileID,
      filename := env.base video.filePath, filePath := video.filePath,
      startedAt := env.now, finishedAt := 0, durationSeconds := 0,
      isAd := video.isAd, skipRequested := 0 }
  let db := { db with history := db.history ++ [history],
                      nextHistoryID := db.nextHistoryID + 1 }
  let ps : PlayerState :=
    { currentFile := some video, currentHistory := some history }
  match outcome with
  | .feederBusy => { err := some .feederChannelTimeout, db := db, ps := ps }
  | .skip =>
    let h := history.markAsSkipped env.now
    let v := video.markAsPlayed env.now
    { err := some .videoSkipped,
      db := { db with history := updateHistoryByID db.history h,
                      queue := updateQueueByID db.queue v },
      ps := { currentFile := none, currentHistory := none } }
  | .failure =>
    { err := some .feedError, db := db, ps := ps }
  | .success =>
    let h := history.markAsFinished env.now
    let v := video.markAsPlayed env.now
    { err := none,
      db := { db with history := updateHistoryByID db.history h,
                      queue := updateQueueByID db.queue v },
      ps := { currentFile := none, currentHistory := none } }

/-- The `for i, file := range availableFiles` loop of
`autoFillQueueFromLibrary`: walk the catalog rows with their enumeration
index `i`, skip a file whose `os.Stat` fails, and insert a schedule row with
`SchedulePosition: i` for each surviving file, counting the successes. -/
def populateScheduleAux (env : Env) (i : Nat) (files : List AvailableFiles)
    (count : Nat) (db : DB) : Nat × DB :=
  match files with
  | [] => (count, db)
  | f :: rest =>
    if f.filePath ∈ env.disk then
      let row : Schedule :=
        { id := db.nextScheduleID, fileID := f.fileID, filePath := f.filePath,
          schedulePosition := (i : Int), isCurrent := 0, addedAt := env.now }
      populateScheduleAux env (i + 1) rest (count + 1)
        { db with schedule := db.schedule ++ [row],
                  nextScheduleID := db.nextScheduleID + 1 }
    else populateScheduleAux env (i + 1) rest count db

/-- The tail of `autoFillQueueFromLibrary` once a schedule item is in hand:
re-check the file on disk, read `COALESCE(MAX(queue_position), 0)` and insert
the item into the queue at `max + 1`. -/
def autoFillInsert (env : Env) (db : DB) (item : Schedule) :
    Option StreamError × DB :=
  if item.filePath ∈ env.disk then
    let nextPos := maxQueuePos db.queue + 1
    let queueItem : VideoQueue :=
      { id := db.nextQueueID, fileID := item.fileID,
        filePath := item.filePath, addedAt := env.now, played := 0,
        playedAt := 0, queuePosition := nextPos, isAd := 0 }
    (none, { db with queue := db.queue ++ [queueItem],
                     nextQueueID := db.nextQueueID + 1 })
  else (some .scheduledFileMissing, db)

/-- `PersistentPlayer.autoFillQueueFromLibrary()`: ask the schedule for the
next cyclic item; when the schedule is empty, populate it from the whole
catalog (skipping files missing on disk) and retry once; then push the chosen
item into the queue.  Errors are returned together with the store because the
schedule mutations made before an error are not rolled back. -/
def autoFillQueueFromLibrary (env : Env) (db : DB) :
    Option StreamError × DB :=
  let advanced := getNextFromSchedule db.schedule
  let db := { db with schedule := advanced.2 }
  match advanced.1 with
  | some item => autoFillInsert env db item
  | none =>
    if db.availFiles.isEmpty then (some .noVideosAvailable, db)
    else
      let populated := populateScheduleAux env 0 db.availFiles 0 db
      let db := populated.2
      if populated.1 == 0 then (some .schedulePopulationFailed, db)
      else
        let retried := getNextFromSchedule db.schedule
        let db := { db with schedule := retried.2 }
        match retried.1 with
        | some item => autoFillInsert env db item
        | none => (some .scheduleStillEmpty, db)

/-- One iteration of the `videoPlayer()` consumer loop (without the stop
branch): fetch the next pending queue item; if there is none, attempt the
schedule-driven auto-fill and continue; otherwise play it, and on any play
error finalize the current history record as skipped, force the queue item to
`played = 1` and continue. -/
def videoPlayerStep (env : Env) (db : DB) (ps : PlayerState)
    (outcome : FeedOutcome) : DB × PlayerState :=
  match nextPending? db.queue with
  | none => ((autoFillQueueFromLibrary env db).2, ps)
  | some video =>
    let r := playVideo env db video outcome
    match r.err with
    | none => (r.db, r.ps)
    | some _ =>
      let db :=
        match r.ps.currentHistory with
        | some h =>
          { r.db with
              history := updateHistoryByID r.db.history
                (h.markAsSkipped env.now) }
        | none => r.db
      let db :=
        { db with
            queue := updateQueueByID db.queue (video.markAsPlayed env.now) }
      (db, r.ps)

/-- Iterate the consumer loop under a fixed outcome for every play-step. -/
def videoPlayerIter (env : Env) (outcome : FeedOutcome) :
    Nat → DB × PlayerState → DB × PlayerState
  | 0, s => s
  | n + 1, s => videoPlayerIter env outcome n
      (videoPlayerStep env s.1 s.2 outcome)

/-- `PersistentPlayer.Skip()`: read the "currently playing" pointer under the
lock; with nothing in flight return the `NothingPlaying` error; otherwise try
to send on the skip channel, which succeeds only if the play-step is
listening within the 1-second window.  The function itself never touches the
store or the player pointers. -/
def skip (db : DB) (ps : PlayerState) (listening : Bool) :
    Option StreamError × DB × PlayerState :=
  match ps.currentFile with
  | none => (some .nothingPlaying, db, ps)
  | some _ =>
    if listening then (none, db, ps) else (some .skipSignalTimeout, db, ps)

/-- Number of pending (unplayed) rows of the queue. -/
def unplayedCount (rows : List VideoQueue) : Nat :=
  (rows.filter (fun r => r.played == 0)).length

/-- Well-formedness of the queue table as the code maintains it: every row id
is below the autoincrement counter and the `played` flag is boolean-valued
(`0` or `1`). -/
def DB.wfQueue (db : DB) : Prop :=
  (∀ q ∈ db.queue, q.id < db.nextQueueID) ∧
  (∀ q ∈ db.queue, q.played = 0 ∨ q.played = 1)

/-! ## Sorted views -/

/-- `GetQueue()` ordering: `OrderBy("queue_position ASC, id ASC")`, modelled
as a stable insertion sort by the (position, id) lexicographic key. -/
def insertByPos (q : VideoQueue) : List VideoQueue → List VideoQueue
  | [] => [q]
  | r :: rs =>
    if q.queuePosition < r.queuePosition ∨
        (q.queuePosition = r.queuePosition ∧ q.id < r.id) then q :: r :: rs
    else r :: insertByPos q rs

/-- The queue in the order `GetQueue()` returns it. -/
def queueByPosition : List VideoQueue → List VideoQueue
  | [] => []
  | q :: qs => insertByPos q (queueByPosition qs)

/-! ## Concrete fixtures used by the witness theorems -/

/-- A concrete environment: identity hashing/normalization, three files on
disk. -/
def envW : Env :=
  { md5hex := fun s => s, absClean := fun s => s, base := fun s => s,
    disk := ["a", "b", "c"], now := 100 }

/-- A concrete catalog row for the path `p`. -/
def afW (p : String) : AvailableFiles :=
  { fileID := p, filePath := p, fileSize := 1, videoLength := 1,
    addedTime := 0, ffprobeData := "" }

/-- A concrete store with three cataloged files and empty tables. -/
def dbW : DB :=
  { availFiles := [afW "a", afW "b", afW "c"], schedule := [], queue := [],
    history := [], nextScheduleID := 1, nextQueueID := 1, nextHistoryID := 1 }

/-- Conclusion of C10: a regular enqueue appends one row at
`max(queue_position) + 1` computed over all rows (played included, `0` for an
empty table), hence never at position `0` and at position `1` on an empty
queue; ad injection is what inserts at position `0`. -/
def RegularEnqueuePositionSpec (env : Env) (db : DB) (path adPath : String) :
    Prop :=
  (∃ db2 item, addToQueue env db path false = .ok db2 ∧
    db2.queue = db.queue ++ [item] ∧
    item.queuePosition = maxQueuePos db.queue + 1 ∧
    1 ≤ item.queuePosition ∧
    (db.queue = [] → item.queuePosition = 1)) ∧
  (∃ db2 ad, injectAd env db adPath = .ok db2 ∧
    db2.queue.getLast? = some ad ∧ ad.queuePosition = 0 ∧ ad.isAd = 1)

/-- Conclusion of C7: both enqueue entry points reject a file that is on disk
but absent from `availible_files` with the not-cataloged error; the `Except`
result carries no successor state, and the validation precedes every write,
so no queue row is inserted and no positions shift. -/
def NotCatalogedSpec (env : Env) (db : DB) (path : String) : Prop :=
  (∀ isAd, addToQueue env db path isAd = .error .notCataloged) ∧
  injectAd env db path = .error .notCataloged

/-- Conclusion of C3 (general part): a regular enqueue appends one row at
`max(position) + 1`; injecting an ad shifts every pending row's position up
by one and appends the ad row at position `0`. -/
def AdPrioritySpec (env : Env) (db : DB) (path adPath : String) : Prop :=
  (∃ db2 item, addToQueue env db path false = .ok db2 ∧
    db2.queue = db.queue ++ [item] ∧
    item.queuePosition = maxQueuePos db.queue + 1) ∧
  (∃ db2 ad, injectAd env db adPath = .ok db2 ∧
    db2.queue = db.queue.map (fun r =>
      if r.played == 0 then { r with queuePosition := r.queuePosition + 1 }
      else r) ++ [ad] ∧
    ad.queuePosition = 0 ∧ ad.isAd = 1)

/-- The concrete ad-priority scenario of C3: two regular enqueues into the
empty queue followed by one ad injection. -/
def adScenarioRun : Except StreamError DB :=
  addToQueue envW dbW "a" false >>= fun d1 =>
  addToQueue envW d1 "b" false >>= fun d2 =>
  injectAd envW d2 "c"

/-- A concrete in-flight queue item and player state for the witnesses. -/
def vidW : VideoQueue :=
  { id := 1, fileID := "a", filePath := "a", addedAt := 0, played := 0,
    playedAt := 0, queuePosition := 1, isAd := 0 }

/-- A player state with `vidW` in flight. -/
def psW : PlayerState :=
  { currentFile := some vidW, currentHistory := none }

/-- Conclusion of C4: the skip branch of the play-step finalizes exactly one
new history record (skipped, `finished_at` set) and forces the queue row to
`played = 1`; `skip()` with nothing in flight returns `NothingPlaying` and
changes nothing; with a play-step in flight but not listening within the
window, `skip()` returns the timeout error and changes nothing. -/
def SkipSemanticsSpec (env : Env) (db : DB) (ps : PlayerState)
    (video : VideoQueue) (listening : Bool) : Prop :=
  (∃ h, (playVideo env db video .skip).db.history = db.history ++ [h] ∧
    h.skipRequested = 1 ∧ h.finishedAt = env.now ∧ h.fileID = video.fileID ∧
    h.startedAt = env.now) ∧
  ((playVideo env db video .skip).db.queue =
    updateQueueByID db.queue (video.markAsPlayed env.now)) ∧
  (∀ q ∈ (playVideo env db video .skip).db.queue,
    q.id = video.id → q.played = 1) ∧
  ((playVideo env db video .skip).err = some .videoSkipped) ∧
  ((playVideo env db video .skip).ps =
    { currentFile := none, currentHistory := none }) ∧
  (ps.currentFile = none → skip db ps listening = (some .nothingPlaying, db, ps)) ∧
  (ps.currentFile ≠ none → listening = false →
    skip db ps listening = (some .skipSignalTimeout, db, ps))

/-- The schedule fixture of the C2 scenario: three rows at positions
`[0, 1, 2]`, none current. -/
def schedW : List Schedule :=
  [{ id := 1, fileID := "a", filePath := "a", schedulePosition := 0,
     isCurrent := 0, addedAt := 0 },
   { id := 2, fileID := "b", filePath := "b", schedulePosition := 1,
     isCurrent := 0, addedAt := 0 },
   { id := 3, fileID := "c", filePath := "c", schedulePosition := 2,
     isCurrent := 0, addedAt := 0 }]

/-- Positions returned by four successive `next()` calls starting from
`schedW`. -/
def scheduleCycleRun : List (Option Int) :=
  let s1 := getNextFromSchedule schedW
  let s2 := getNextFromSchedule s1.2
  let s3 := getNextFromSchedule s2.2
  let s4 := getNextFromSchedule s3.2
  [s1.1.map Schedule.schedulePosition, s2.1.map Schedule.schedulePosition,
   s3.1.map Schedule.schedulePosition, s4.1.map Schedule.schedulePosition]

/-- Conclusion of C2 (general part), one conjunct per branch of `next()`:
empty schedule returns none; with no current marker the lowest-position row is
marked current and returned; with a current marker and a row strictly after
it, the least such row is returned, the old current un-marked and the new one
marked; with the current row last, it wraps to the lowest-position row. -/
def ScheduleNextSpec (rows : List Schedule) : Prop :=
  (rows = [] → getNextFromSchedule rows = (none, rows)) ∧
  (rows.find? (fun r => r.isCurrent == 1) = none → rows ≠ [] →
    ∃ r ∈ rows, (getNextFromSchedule rows).1 = some r.markAsCurrent ∧
      (getNextFromSchedule rows).2 = markCurrentByID rows r.id ∧
      ∀ s ∈ rows, r.schedulePosition ≤ s.schedulePosition) ∧
  (∀ cur, rows.find? (fun r => r.isCurrent == 1) = some cur →
    (∃ s ∈ rows, cur.schedulePosition < s.schedulePosition) →
    ∃ r ∈ rows, cur.schedulePosition < r.schedulePosition ∧
      (∀ s ∈ rows, cur.schedulePosition < s.schedulePosition →
        r.schedulePosition ≤ s.schedulePosition) ∧
      (getNextFromSchedule rows).1 = some r.markAsCurrent ∧
      (getNextFromSchedule rows).2 =
        markCurrentByID (unmarkAllCurrent rows) r.id) ∧
  (∀ cur, rows.find? (fun r => r.isCurrent == 1) = some cur →
    (∀ s ∈ rows, s.schedulePosition ≤ cur.schedulePosition) →
    ∃ r ∈ rows, (∀ s ∈ rows, r.schedulePosition ≤ s.schedulePosition) ∧
      (getNextFromSchedule rows).1 = some r.markAsCurrent ∧
      (getNextFromSchedule rows).2 =
        markCurrentByID (unmarkAllCurrent rows) r.id)

/-- A one-row schedule fixture (dense, position 0). -/
def dbSW : DB :=
  { availFiles := [], schedule :=
      [{ id := 1, fileID := "a", filePath := "a", schedulePosition := 0,
         isCurrent := 0, addedAt := 0 }],
    queue := [], history := [],
    nextScheduleID := 2, nextQueueID := 1, nextHistoryID := 1 }

/-- The per-row effect of a successful `reorder` move (composition of the
range shift with the final write of the moved row). -/
def moveRow (scheduleID oldPosition np : Int) (r : Schedule) : Schedule :=
  if r.id == scheduleID then { r with schedulePosition := np }
  else if np < oldPosition then
    (if np ≤ r.schedulePosition ∧ r.schedulePosition < oldPosition then
      { r with schedulePosition := r.schedulePosition + 1 }
    else r)
  else
    (if oldPosition < r.schedulePosition ∧ r.schedulePosition ≤ np then
      { r with schedulePosition := r.schedulePosition - 1 }
    else r)

/-- Conclusion of the amended C6: with the item found, a negative requested
position is rejected; an unchanged position is a successful no-op; otherwise
the requested position is clamped from above to `count - 1` (never from
below), the moved row gets the clamped position and exactly the rows between
the old and new position shift by ±1. -/
def ReorderMoveSpec (db : DB) (scheduleID newPosition : Int) : Prop :=
  ∀ item, db.schedule.find? (fun r => r.id == scheduleID) = some item →
    (newPosition < 0 →
      updateSchedulePosition db scheduleID newPosition =
        .error .positionNegative) ∧
    (0 ≤ newPosition → item.schedulePosition = newPosition →
      updateSchedulePosition db scheduleID newPosition = .ok db) ∧
    (0 ≤ newPosition → ¬(item.schedulePosition = newPosition) →
      let np : Int :=
        if (db.schedule.length : Int) ≤ newPosition then
          (db.schedule.length : Int) - 1
        else newPosition
      updateSchedulePosition db scheduleID newPosition =
        .ok { db with schedule :=
          db.schedule.map (moveRow scheduleID item.schedulePosition np) })

/-- Conclusion of the amended C5: a successful single-item `reorder` and a
successful `remove_by_id` keep the schedule positions a contiguous
`[0, n-1]` range.  (`bulk_reorder` is excluded: it writes exactly the
requested positions, which need not be contiguous.) -/
def ReorderDensitySpec (db : DB) : Prop :=
  (∀ scheduleID newPosition db2,
    updateSchedulePosition db scheduleID newPosition = .ok db2 →
    densePositions db2.schedule) ∧
  (∀ scheduleID db2,
    removeFromScheduleByID db scheduleID = .ok db2 →
    densePositions db2.schedule)

/-- Spec-side reconstruction of the rows the auto-population loop inserts:
the surviving files in catalog order, each at a position equal to its
enumeration index `i` (indices of skipped files are consumed, not reused)
and with consecutive fresh ids from `base`. -/
def survivorRows (env : Env) : Nat → Int → List AvailableFiles → List Schedule
  | _, _, [] => []
  | i, base, f :: rest =>
    if f.filePath ∈ env.disk then
      { id := base, fileID := f.fileID, filePath := f.filePath,
        schedulePosition := (i : Int), isCurrent := 0, addedAt := env.now } ::
        survivorRows env (i + 1) (base + 1) rest
    else survivorRows env (i + 1) base rest

def autoFillQueueItem (env : Env) (db : DB) (r0 : Schedule) : VideoQueue :=
  { id := db.nextQueueID, fileID := r0.fileID, filePath := r0.filePath,
    addedAt := env.now, played := 0, playedAt := 0,
    queuePosition := maxQueuePos db.queue + 1, isAd := 0 }

/-- Conclusion of the amended C8: with the queue empty of pending items and
the schedule empty (so `next()` returns none), auto-fill enumerates the whole
catalog, inserts a schedule row for each file still on disk at a position
equal to its catalog enumeration index (so positions have gaps whenever a
file is missing), errors when the catalog is empty or nothing survives, and
otherwise marks the first surviving row current and appends it to the queue
at `max(queue_position) + 1`. -/
def AutoFillSpec (env : Env) (db : DB) : Prop :=
  (db.availFiles = [] →
    autoFillQueueFromLibrary env db = (some .noVideosAvailable, db)) ∧
  (db.availFiles ≠ [] →
    survivorRows env 0 db.nextScheduleID db.availFiles = [] →
    autoFillQueueFromLibrary env db = (some .schedulePopulationFailed, db)) ∧
  (∀ r0 rest,
    survivorRows env 0 db.nextScheduleID db.availFiles = r0 :: rest →
    autoFillQueueFromLibrary env db =
      (none, { db with
        schedule := markCurrentByID (r0 :: rest) r0.id,
        queue := db.queue ++ [autoFillQueueItem env db r0],
        nextScheduleID := db.nextScheduleID + ((r0 :: rest).length : Int),
        nextQueueID := db.nextQueueID + 1 }))

/-- Environment for the C8 counterexample: catalog file `"a"` is missing on
disk, `"b"` survives. -/
def envG : Env :=
  { md5hex := fun s => s, absClean := fun s => s, base := fun s => s,
    disk := ["b"], now := 100 }

/-- Store for the C8 counterexample: two cataloged files, empty tables. -/
def dbG : DB :=
  { availFiles := [afW "a", afW "b"], schedule := [], queue := [],
    history := [], nextScheduleID := 1, nextQueueID := 1, nextHistoryID := 1 }

/-- Conclusion of C1: on any feed failure the play-step's failure path
appends exactly one finalized (skipped) history record for the selected
pending item and marks its queue row played; and iterating the consumer loop
under failures for at least `unplayedCount` steps leaves every queue row
whose id was present at the start with `played = 1` (auto-filled newcomers
are appended behind and do not stall the loop on an old item). -/
def AntiLivelockSpec (env : Env) (db : DB) (ps : PlayerState) : Prop :=
  (∀ v, nextPending? db.queue = some v →
    (∃ h, (videoPlayerStep env db ps .failure).1.history = db.history ++ [h] ∧
      h.skipRequested = 1 ∧ h.finishedAt = env.now ∧ h.fileID = v.fileID) ∧
    (∀ q ∈ (videoPlayerStep env db ps .failure).1.queue,
      q.id = v.id → q.played = 1)) ∧
  (∀ m, unplayedCount db.queue ≤ m →
    ∀ i ∈ db.queue.map VideoQueue.id,
      ∀ q ∈ (videoPlayerIter env .failure m (db, ps)).1.queue,
        q.id = i → q.played = 1)

/-- A store with one pending queue row, used by the C1 witness. -/
def dbPW : DB :=
  { availFiles := [], schedule := [], queue := [vidW], history := [],
    nextScheduleID := 1, nextQueueID := 2, nextHistoryID := 1 }

/-! ## General-purpose lemmas -/

theorem firstByPos?_eq_none (l : List Schedule) :
    firstByPos? l = none ↔ l = [] := by
  induction l with
  | nil => simp [firstByPos?]
  | cons r rs ih =>
    simp only [firstByPos?]
    constructor
    · intro hx
      split at hx
      · exact absurd hx (by simp)
      · split at hx <;> exact absurd hx (by simp)
    · intro hx
      exact absurd hx (by simp)

theorem firstByPos?_some (l : List Schedule) (hne : l ≠ []) :
    ∃ r, firstByPos? l = some r := by
  cases h : firstByPos? l with
  | none => exact absurd ((firstByPos?_eq_none l).mp h) hne
  | some r => exact ⟨r, rfl⟩

theorem firstByPos?_mem (l : List Schedule) (r : Schedule)
    (h : firstByPos? l = some r) : r ∈ l := by
  induction l generalizing r with
  | nil => simp [firstByPos?] at h
  | cons x xs ih =>
    simp only [firstByPos?] at h
    split at h
    · simp only [Option.some.injEq] at h
      subst h
      exact List.mem_cons_self _ _
    · rename_i b heq
      split at h
      · simp only [Option.some.injEq] at h
        subst h
        exact List.mem_cons_of_mem x (ih _ heq)
      · simp only [Option.some.injEq] at h
        subst h
        exact List.mem_cons_self _ _

theorem firstByPos?_min (l : List Schedule) (r : Schedule)
    (h : firstByPos? l = some r) :
    ∀ s ∈ l, r.schedulePosition ≤ s.schedulePosition := by
  induction l generalizing r with
  | nil => simp [firstByPos?] at h
  | cons x xs ih =>
    simp only [firstByPos?] at h
    intro s hs
    split at h
    · rename_i heq
      have hxs : xs = [] := (firstByPos?_eq_none xs).mp heq
      subst hxs
      simp only [Option.some.injEq] at h
      subst h
      simp only [List.mem_singleton] at hs
      subst hs
      exact le_refl _
    · rename_i b heq
      split at h
      · rename_i hb
        simp only [Option.some.injEq] at h
        subst h
        rcases List.mem_cons.mp hs with h2 | hsxs
        · subst h2
          exact le_of_lt hb
        · exact ih _ heq s hsxs
      · rename_i hb
        simp only [Option.some.injEq] at h
        subst h
        rcases List.mem_cons.mp hs with h2 | hsxs
        · subst h2
          exact le_refl _
        · exact le_trans (not_lt.mp hb) (ih _ heq s hsxs)

theorem nodup_intRange (n : Nat) :
    ((List.range n).map (fun k : Nat => (k : Int))).Nodup :=
  (List.nodup_range n).map (fun a b hab => by exact_mod_cast hab)

/-- A duplicate-free list of integers all lying in `[0, length)` is a
permutation of `0, …, length - 1`. -/
theorem perm_intRange_of_nodup (l : List Int) (hnd : l.Nodup)
    (h : ∀ x ∈ l, 0 ≤ x ∧ x < (l.length : Int)) :
    l.Perm ((List.range l.length).map (fun k : Nat => (k : Int))) := by
  apply List.perm_of_nodup_nodup_toFinset_eq hnd (nodup_intRange _)
  apply Finset.eq_of_subset_of_card_le
  · intro x hx
    simp only [List.mem_toFinset] at hx
    simp only [List.mem_toFinset, List.mem_map, List.mem_range]
    obtain ⟨h0, h1⟩ := h x hx
    exact ⟨x.toNat, by omega, by omega⟩
  · rw [List.toFinset_card_of_nodup hnd,
      List.toFinset_card_of_nodup (nodup_intRange _), List.length_map,
      List.length_range]

theorem foldl_max_ge_init (l : List VideoQueue) (a : Int) :
    a ≤ l.foldl (fun m x => max m x.queuePosition) a := by
  induction l generalizing a with
  | nil => simp
  | cons x xs ih => exact le_trans (le_max_left _ _) (ih _)

theorem maxQueuePos_nonneg (rows : List VideoQueue)
    (h : ∀ q ∈ rows, 0 ≤ q.queuePosition) : 0 ≤ maxQueuePos rows := by
  cases rows with
  | nil => simp [maxQueuePos]
  | cons r rs =>
    exact le_trans (h r (List.mem_cons_self r rs)) (foldl_max_ge_init rs _)

/-! ## C9: clear_played deletes exactly the played rows and is idempotent -/

/-- C9: `clear_played` deletes exactly the `played = 1` rows, returns their
count, leaves the unplayed rows untouched and in order, and a second call
removes nothing. -/
theorem C9_clear_played_idempotent (db : DB) :
    (clearPlayedFromQueue db).1 =
      ((db.queue.filter (fun r => r.played == 1)).length : Int) ∧
    (clearPlayedFromQueue db).2.queue =
      db.queue.filter (fun r => !(r.played == 1)) ∧
    (clearPlayedFromQueue (clearPlayedFromQueue db).2).1 = 0 ∧
    (clearPlayedFromQueue (clearPlayedFromQueue db).2).2.queue =
      (clearPlayedFromQueue db).2.queue := by
  refine ⟨rfl, rfl, ?_, ?_⟩
  · simp only [clearPlayedFromQueue, List.filter_filter]
    norm_cast
    rw [List.length_eq_zero]
    apply List.filter_eq_nil_iff.mpr
    intro a _
    cases h : a.played == 1 <;> simp [h]
  · simp only [clearPlayedFromQueue, List.filter_filter]
    apply List.filter_congr
    intro a _
    cases h : a.played == 1 <;> simp [h]

/-! ## C10: regular enqueue position arithmetic -/

/-- C10: for every regular enqueue, the new item's queue position is
`max(queue_position) + 1` over all existing rows, played rows included, with
`0` as the max of an empty queue; so a regular enqueue never assigns position
`0` (the first item of an empty queue gets `1`), and position `0` comes only
from ad injection. -/
theorem C10_regular_enqueue_position (env : Env) (db : DB)
    (path adPath : String)
    (hdisk : env.absClean path ∈ env.disk)
    (hcat : db.availFiles.any
      (fun f => f.fileID == env.md5hex (env.absClean path)) = true)
    (hpos : ∀ q ∈ db.queue, 0 ≤ q.queuePosition)
    (hdisk2 : env.absClean adPath ∈ env.disk)
    (hcat2 : db.availFiles.any
      (fun f => f.fileID == env.md5hex (env.absClean adPath)) = true) :
    RegularEnqueuePositionSpec env db path adPath := by
  constructor
  · simp only [RegularEnqueuePositionSpec, addToQueue, if_pos hdisk, hcat,
      if_true, Bool.false_eq_true, if_false]
    refine ⟨_, _, rfl, rfl, rfl, ?_, ?_⟩
    · show 1 ≤ maxQueuePos db.queue + 1
      have := maxQueuePos_nonneg db.queue hpos
      omega
    · intro h
      show maxQueuePos db.queue + 1 = 1
      simp [maxQueuePos, h]
  · simp only [injectAd, if_pos hdisk2, hcat2, if_true]
    refine ⟨_,
      { id := db.nextQueueID, fileID := env.md5hex (env.absClean adPath),
        filePath := env.absClean adPath, addedAt := env.now, played := 0,
        playedAt := 0, queuePosition := 0, isAd := 1 },
      rfl, ?_, rfl, rfl⟩
    exact List.getLast?_concat _

/-- Witness for C10 at the concrete fixture. -/
theorem C10_regular_enqueue_position_witness :
    (envW.absClean "a" ∈ envW.disk) ∧
    (dbW.availFiles.any
      (fun f => f.fileID == envW.md5hex (envW.absClean "a")) = true) ∧
    (∀ q ∈ dbW.queue, 0 ≤ q.queuePosition) ∧
    (envW.absClean "c" ∈ envW.disk) ∧
    (dbW.availFiles.any
      (fun f => f.fileID == envW.md5hex (envW.absClean "c")) = true) ∧
    RegularEnqueuePositionSpec envW dbW "a" "c" :=
  ⟨by decide, by decide, by decide, by decide, by decide,
   C10_regular_enqueue_position envW dbW "a" "c" (by decide) (by decide)
     (by decide) (by decide) (by decide)⟩

/-! ## C7: enqueue of a non-cataloged file is rejected with no mutation -/

/-- C7: enqueuing (regular or ad) a file that is not in the catalog fails
with `NotCataloged` and mutates nothing. -/
theorem C7_not_cataloged_rejected (env : Env) (db : DB) (path : String)
    (hdisk : env.absClean path ∈ env.disk)
    (hcat : ∀ f ∈ db.availFiles, ¬(f.fileID = env.md5hex (env.absClean path))) :
    NotCatalogedSpec env db path := by
  have hany : db.availFiles.any
      (fun f => f.fileID == env.md5hex (env.absClean path)) = false := by
    rw [List.any_eq_false]
    intro f hf
    simpa using hcat f hf
  constructor
  · intro isAd
    simp only [addToQueue, if_pos hdisk, hany, Bool.false_eq_true, if_false]
  · simp only [injectAd, if_pos hdisk, hany, Bool.false_eq_true, if_false]

/-- Witness for C7: the path `"c"` is on disk but dropped from the catalog. -/
theorem C7_not_cataloged_rejected_witness :
    (envW.absClean "c" ∈ envW.disk) ∧
    (∀ f ∈ ({ dbW with availFiles := [afW "a", afW "b"] } : DB).availFiles,
      ¬(f.fileID = envW.md5hex (envW.absClean "c"))) ∧
    NotCatalogedSpec envW { dbW with availFiles := [afW "a", afW "b"] } "c" :=
  ⟨by decide, by decide,
   C7_not_cataloged_rejected envW { dbW with availFiles := [afW "a", afW "b"] }
     "c" (by decide) (by decide)⟩

/-! ## C3: ad priority -/

/-- C3: a regular enqueue assigns `max(position) + 1` and ad injection
inserts at position `0` while shifting all pending rows up by one; in the
concrete scenario (two regular items into an empty queue, then one ad) the
queue reads `[ad, item1, item2]` in position order with the ad at `0`. -/
theorem C3_ad_priority (env : Env) (db : DB) (path adPath : String)
    (hdisk : env.absClean path ∈ env.disk)
    (hcat : db.availFiles.any
      (fun f => f.fileID == env.md5hex (env.absClean path)) = true)
    (hdisk2 : env.absClean adPath ∈ env.disk)
    (hcat2 : db.availFiles.any
      (fun f => f.fileID == env.md5hex (env.absClean adPath)) = true) :
    AdPrioritySpec env db path adPath ∧
    (match adScenarioRun with
     | .ok d => some ((queueByPosition d.queue).map
         (fun q => (q.fileID, q.queuePosition, q.isAd)))
     | .error _ => none) =
      some [("c", 0, 1), ("a", 2, 0), ("b", 3, 0)] := by
  refine ⟨⟨?_, ?_⟩, by decide⟩
  · simp only [addToQueue, if_pos hdisk, hcat, if_true, Bool.false_eq_true,
      if_false]
    exact ⟨_, _, rfl, rfl, rfl⟩
  · simp only [injectAd, if_pos hdisk2, hcat2, if_true]
    exact ⟨_, _, rfl, rfl, rfl, rfl⟩

/-- Witness for C3 at the concrete fixture. -/
theorem C3_ad_priority_witness :
    (envW.absClean "a" ∈ envW.disk) ∧
    (dbW.availFiles.any
      (fun f => f.fileID == envW.md5hex (envW.absClean "a")) = true) ∧
    (envW.absClean "c" ∈ envW.disk) ∧
    (dbW.availFiles.any
      (fun f => f.fileID == envW.md5hex (envW.absClean "c")) = true) ∧
    (AdPrioritySpec envW dbW "a" "c" ∧
     (match adScenarioRun with
      | .ok d => some ((queueByPosition d.queue).map
          (fun q => (q.fileID, q.queuePosition, q.isAd)))
      | .error _ => none) =
       some [("c", 0, 1), ("a", 2, 0), ("b", 3, 0)]) :=
  ⟨by decide, by decide, by decide, by decide,
   C3_ad_priority envW dbW "a" "c" (by decide) (by decide) (by decide)
     (by decide)⟩

/-! ## C4: skip semantics -/

theorem map_update_id (rows : List PlayHistory) (h1 : PlayHistory)
    (hid : ∀ x ∈ rows, ¬(x.id = h1.id)) :
    rows.map (fun x => if x.id == h1.id then h1 else x) = rows := by
  induction rows with
  | nil => rfl
  | cons a as ih =>
    have hne : (a.id == h1.id) = false :=
      beq_eq_false_iff_ne.mpr (hid a (List.mem_cons_self a as))
    simp only [List.map_cons, hne, Bool.false_eq_true, if_false,
      List.cons.injEq, true_and]
    exact ih fun x hx => hid x (List.mem_cons_of_mem a hx)

theorem updateHistoryByID_append_fresh (rows : List PlayHistory)
    (h0 h1 : PlayHistory) (hid : ∀ x ∈ rows, ¬(x.id = h0.id))
    (hkeep : h1.id = h0.id) :
    updateHistoryByID (rows ++ [h0]) h1 = rows ++ [h1] := by
  unfold updateHistoryByID
  rw [List.map_append,
    map_update_id rows h1 (fun x hx => by rw [hkeep]; exact hid x hx)]
  simp [hkeep]

/-- C4: skip while in flight finalizes exactly one history record as skipped
with `finished_at` set and marks the queue row played; skip with nothing
playing returns `NothingPlaying` without mutation; skip with a non-listening
play-step times out without mutation. -/
theorem C4_skip_semantics (env : Env) (db : DB) (ps : PlayerState)
    (video : VideoQueue) (listening : Bool)
    (hwf : ∀ x ∈ db.history, x.id < db.nextHistoryID) :
    SkipSemanticsSpec env db ps video listening := by
  refine ⟨⟨_, updateHistoryByID_append_fresh db.history _ _
      (fun x hx => by
        have h2 := hwf x hx
        show ¬(x.id = db.nextHistoryID)
        omega) rfl,
    rfl, rfl, rfl, rfl⟩, rfl, ?_, rfl, rfl, ?_, ?_⟩
  · intro q hq hqid
    have hq2 : q ∈ updateQueueByID db.queue (video.markAsPlayed env.now) := hq
    simp only [updateQueueByID, List.mem_map] at hq2
    obtain ⟨x, hx, hxq⟩ := hq2
    by_cases hid2 : (x.id == (VideoQueue.markAsPlayed env.now video).id) = true
    · rw [if_pos hid2] at hxq
      rw [← hxq]
      rfl
    · rw [if_neg hid2] at hxq
      rw [← hxq] at hqid
      exact absurd hqid (by simpa [VideoQueue.markAsPlayed] using hid2)
  · intro hnone
    simp [skip, hnone]
  · intro hsome hfalse
    cases hcf : ps.currentFile with
    | none => exact absurd hcf hsome
    | some v =>
      rw [hfalse]
      simp [skip, hcf]

/-- Witness for C4 at the concrete fixture. -/
theorem C4_skip_semantics_witness :
    (∀ x ∈ dbW.history, x.id < dbW.nextHistoryID) ∧
    SkipSemanticsSpec envW dbW psW vidW false :=
  ⟨by decide, C4_skip_semantics envW dbW psW vidW false (by decide)⟩

/-! ## C2: cyclic schedule advance -/

/-- C2: `next()` is the stateful cyclic advance described branch by branch in
`ScheduleNextSpec`, and on positions `[0, 1, 2]` with no current marker four
successive calls return positions `0, 1, 2, 0`. -/
theorem C2_schedule_next (rows : List Schedule) :
    ScheduleNextSpec rows ∧
    scheduleCycleRun = [some 0, some 1, some 2, some 0] := by
  refine ⟨⟨?_, ?_, ?_, ?_⟩, by decide⟩
  · intro h
    subst h
    rfl
  · intro hfind hne
    obtain ⟨r, hr⟩ := firstByPos?_some rows hne
    refine ⟨r, firstByPos?_mem rows r hr, ?_, ?_, firstByPos?_min rows r hr⟩
    · simp only [getNextFromSchedule, hfind, hr]
    · simp only [getNextFromSchedule, hfind, hr]
  · rintro cur hfind ⟨s0, hs0, hgt⟩
    have hne2 : rows.filter
        (fun r => decide (cur.schedulePosition < r.schedulePosition)) ≠ [] := by
      intro hemp
      have hmem : s0 ∈ rows.filter
          (fun r => decide (cur.schedulePosition < r.schedulePosition)) :=
        List.mem_filter.mpr ⟨hs0, by simpa using hgt⟩
      rw [hemp] at hmem
      simp at hmem
    obtain ⟨r, hr⟩ := firstByPos?_some _ hne2
    have hrmem := firstByPos?_mem _ r hr
    have hrmin := firstByPos?_min _ r hr
    rw [List.mem_filter] at hrmem
    refine ⟨r, hrmem.1, by simpa using hrmem.2, ?_, ?_, ?_⟩
    · intro s hs hgt2
      exact hrmin s (List.mem_filter.mpr ⟨hs, by simpa using hgt2⟩)
    · simp only [getNextFromSchedule, hfind, firstAfter?, hr]
    · simp only [getNextFromSchedule, hfind, firstAfter?, hr]
  · intro cur hfind hall
    have hnone : firstAfter? rows cur.schedulePosition = none := by
      unfold firstAfter?
      rw [firstByPos?_eq_none]
      apply List.filter_eq_nil_iff.mpr
      intro a ha
      simpa using not_lt.mpr (hall a ha)
    have hne : rows ≠ [] := by
      intro h
      rw [h] at hfind
      simp at hfind
    obtain ⟨r, hr⟩ := firstByPos?_some rows hne
    refine ⟨r, firstByPos?_mem rows r hr, firstByPos?_min rows r hr, ?_, ?_⟩
    · simp only [getNextFromSchedule, hfind, hnone, hr]
    · simp only [getNextFromSchedule, hfind, hnone, hr]

/-- Witness for C2 at the concrete fixture (the theorem has no side
hypotheses; this instantiates it at `schedW`). -/
theorem C2_schedule_next_witness :
    ScheduleNextSpec schedW ∧
    scheduleCycleRun = [some 0, some 1, some 2, some 0] :=
  C2_schedule_next schedW

/-! ## Density lemmas for the schedule position invariant -/

theorem densePositions_bounds (rows : List Schedule) (hd : densePositions rows) :
    ∀ r ∈ rows, 0 ≤ r.schedulePosition ∧
      r.schedulePosition < (rows.length : Int) := by
  intro r hr
  have hmem : r.schedulePosition ∈ rows.map Schedule.schedulePosition :=
    List.mem_map_of_mem _ hr
  have h2 : r.schedulePosition ∈
      (List.range rows.length).map (fun k : Nat => (k : Int)) :=
    hd.mem_iff.mp hmem
  rw [List.mem_map] at h2
  obtain ⟨k, hk, hke⟩ := h2
  rw [List.mem_range] at hk
  omega

theorem densePositions_posNodup (rows : List Schedule)
    (hd : densePositions rows) :
    (rows.map Schedule.schedulePosition).Nodup :=
  (List.Perm.nodup_iff hd).mpr (nodup_intRange rows.length)

theorem eq_of_id_nodup (rows : List Schedule)
    (hnd : (rows.map Schedule.id).Nodup) :
    ∀ a ∈ rows, ∀ b ∈ rows, a.id = b.id → a = b := by
  intro a ha b hb hab
  by_contra hne
  have hp : rows.Pairwise (fun x y => x.id ≠ y.id) := List.pairwise_map.mp hnd
  exact hp.forall (by intro x y h e; exact h e.symm) ha hb hne hab

theorem eq_of_pos_nodup (rows : List Schedule)
    (hnd : (rows.map Schedule.schedulePosition).Nodup) :
    ∀ a ∈ rows, ∀ b ∈ rows,
      a.schedulePosition = b.schedulePosition → a = b := by
  intro a ha b hb hab
  by_contra hne
  have hp : rows.Pairwise
      (fun x y => x.schedulePosition ≠ y.schedulePosition) :=
    List.pairwise_map.mp hnd
  exact hp.forall (by intro x y h e; exact h e.symm) ha hb hne hab

theorem moveRow_pos_bounds (rows : List Schedule) (sid : Int) (item : Schedule)
    (hmem : item ∈ rows) (hd : densePositions rows)
    (np : Int) (h0 : 0 ≤ np) (hlt : np < (rows.length : Int)) :
    ∀ r ∈ rows,
      0 ≤ (moveRow sid item.schedulePosition np r).schedulePosition ∧
      (moveRow sid item.schedulePosition np r).schedulePosition <
        (rows.length : Int) := by
  intro r hr
  have hb := densePositions_bounds rows hd r hr
  have hbi := densePositions_bounds rows hd item hmem
  simp only [moveRow, beq_iff_eq]
  split_ifs <;> (try dsimp only) <;> omega

theorem moveRow_pos_nodup (rows : List Schedule) (sid : Int) (item : Schedule)
    (hmem : item ∈ rows) (hid : item.id = sid)
    (hd : densePositions rows) (hnd : (rows.map Schedule.id).Nodup)
    (np : Int) :
    ((rows.map (moveRow sid item.schedulePosition np)).map
      Schedule.schedulePosition).Nodup := by
  rw [List.map_map]
  apply List.Nodup.map_on
  · intro x hx y hy heq
    by_contra hxy
    have hposx := densePositions_posNodup rows hd
    have hpairPos : rows.Pairwise
        (fun a b => a.schedulePosition ≠ b.schedulePosition) :=
      List.pairwise_map.mp hposx
    have hpairId : rows.Pairwise (fun a b => a.id ≠ b.id) :=
      List.pairwise_map.mp hnd
    have hp : x.schedulePosition ≠ y.schedulePosition :=
      hpairPos.forall (by intro a b h e; exact h e.symm) hx hy hxy
    have hi : x.id ≠ y.id :=
      hpairId.forall (by intro a b h e; exact h e.symm) hx hy hxy
    have hxo : ¬(x.id = sid) → x.schedulePosition ≠ item.schedulePosition := by
      intro hxs hpe
      exact hxs ((eq_of_pos_nodup rows hposx x hx item hmem hpe) ▸ hid)
    have hyo : ¬(y.id = sid) → y.schedulePosition ≠ item.schedulePosition := by
      intro hys hpe
      exact hys ((eq_of_pos_nodup rows hposx y hy item hmem hpe) ▸ hid)
    by_cases hx1 : x.id = sid
    · by_cases hy1 : y.id = sid
      · exact hi (hx1.trans hy1.symm)
      · have hy2 := hyo hy1
        simp only [Function.comp_apply, moveRow, beq_iff_eq, if_pos hx1,
          if_neg hy1] at heq
        split_ifs at heq <;> (try dsimp only at heq) <;> omega
    · by_cases hy1 : y.id = sid
      · have hx2 := hxo hx1
        simp only [Function.comp_apply, moveRow, beq_iff_eq, if_neg hx1,
          if_pos hy1] at heq
        split_ifs at heq <;> (try dsimp only at heq) <;> omega
      · have hx2 := hxo hx1
        have hy2 := hyo hy1
        simp only [Function.comp_apply, moveRow, beq_iff_eq, if_neg hx1,
          if_neg hy1] at heq
        split_ifs at heq <;> (try dsimp only at heq) <;> omega
  · exact List.Nodup.of_map _ hnd

theorem densePositions_moveRow (rows : List Schedule) (sid : Int)
    (item : Schedule) (hmem : item ∈ rows) (hid : item.id = sid)
    (hd : densePositions rows) (hnd : (rows.map Schedule.id).Nodup)
    (np : Int) (h0 : 0 ≤ np) (hlt : np < (rows.length : Int)) :
    densePositions (rows.map (moveRow sid item.schedulePosition np)) := by
  unfold densePositions
  have hlen : ((rows.map (moveRow sid item.schedulePosition np)).map
      Schedule.schedulePosition).length = rows.length := by
    simp
  have hperm := perm_intRange_of_nodup
    ((rows.map (moveRow sid item.schedulePosition np)).map
      Schedule.schedulePosition)
    (moveRow_pos_nodup rows sid item hmem hid hd hnd np)
    (by
      intro x hx
      rw [List.map_map, List.mem_map] at hx
      obtain ⟨r, hr, hxe⟩ := hx
      subst hxe
      rw [hlen]
      exact moveRow_pos_bounds rows sid item hmem hd np h0 hlt r hr)
  rw [hlen] at hperm
  rw [List.length_map]
  exact hperm

theorem length_filter_not_split (l : List Schedule) (p : Schedule → Bool) :
    (l.filter (fun r => !(p r))).length + (l.filter p).length = l.length := by
  induction l with
  | nil => rfl
  | cons a t ih =>
    by_cases h : p a = true <;>
      simp only [List.filter_cons, h, Bool.not_true, Bool.not_false,
        if_true, if_false, Bool.false_eq_true, List.length_cons] <;>
      omega

theorem filter_id_length_one (rows : List Schedule) (sid : Int)
    (item : Schedule) (hmem : item ∈ rows) (hid : item.id = sid)
    (hnd : (rows.map Schedule.id).Nodup) :
    (rows.filter (fun r => r.id == sid)).length = 1 := by
  have h1 : (rows.map Schedule.id).count sid = 1 :=
    List.count_eq_one_of_mem hnd (hid ▸ List.mem_map_of_mem Schedule.id hmem)
  rw [← List.countP_eq_length_filter]
  rw [List.count, List.countP_map] at h1
  exact h1

theorem densePositions_removeRow (rows : List Schedule) (sid : Int)
    (item : Schedule) (hmem : item ∈ rows) (hid : item.id = sid)
    (hd : densePositions rows) (hnd : (rows.map Schedule.id).Nodup) :
    densePositions ((rows.filter (fun r => !(r.id == sid))).map
      (fun r => if item.schedulePosition < r.schedulePosition then
        { r with schedulePosition := r.schedulePosition - 1 } else r)) := by
  have hflen : (rows.filter (fun r => !(r.id == sid))).length + 1 =
      rows.length := by
    have hsplit := length_filter_not_split rows (fun r => r.id == sid)
    have hone := filter_id_length_one rows sid item hmem hid hnd
    omega
  have hposx := densePositions_posNodup rows hd
  have hbi := densePositions_bounds rows hd item hmem
  have hmemf : ∀ r ∈ rows.filter (fun r => !(r.id == sid)),
      r ∈ rows ∧ r.schedulePosition ≠ item.schedulePosition := by
    intro r hrf
    obtain ⟨hrm, hrp⟩ := List.mem_filter.mp hrf
    refine ⟨hrm, ?_⟩
    intro hpe
    have hri : r = item := eq_of_pos_nodup rows hposx r hrm item hmem hpe
    subst hri
    simp [hid] at hrp
  have hnodup : (((rows.filter (fun r => !(r.id == sid))).map
      (fun r => if item.schedulePosition < r.schedulePosition then
        { r with schedulePosition := r.schedulePosition - 1 } else r)).map
      Schedule.schedulePosition).Nodup := by
    rw [List.map_map]
    apply List.Nodup.map_on
    · intro x hx y hy heq
      by_contra hxy
      obtain ⟨hxm, hxn⟩ := hmemf x hx
      obtain ⟨hym, hyn⟩ := hmemf y hy
      have hp : x.schedulePosition ≠ y.schedulePosition :=
        fun e => hxy (eq_of_pos_nodup rows hposx x hxm y hym e)
      have hbx := densePositions_bounds rows hd x hxm
      have hby := densePositions_bounds rows hd y hym
      simp only [Function.comp_apply] at heq
      split_ifs at heq <;> (try dsimp only at heq) <;> omega
    · exact (List.Nodup.of_map _ hnd).filter _
  have hperm := perm_intRange_of_nodup
    (((rows.filter (fun r => !(r.id == sid))).map
      (fun r => if item.schedulePosition < r.schedulePosition then
        { r with schedulePosition := r.schedulePosition - 1 } else r)).map
      Schedule.schedulePosition)
    hnodup
    (by
      intro z hz
      rw [List.map_map, List.mem_map] at hz
      obtain ⟨r, hr, hze⟩ := hz
      subst hze
      obtain ⟨hrm, hrn⟩ := hmemf r hr
      have hbr := densePositions_bounds rows hd r hrm
      simp only [Function.comp_apply, List.length_map]
      split_ifs <;> (try dsimp only) <;> omega)
  have hlen : ((((rows.filter (fun r => !(r.id == sid))).map
      (fun r => if item.schedulePosition < r.schedulePosition then
        { r with schedulePosition := r.schedulePosition - 1 } else r)).map
      Schedule.schedulePosition)).length =
      (rows.filter (fun r => !(r.id == sid))).length := by
    simp
  rw [hlen] at hperm
  unfold densePositions
  rw [List.length_map]
  exact hperm


theorem map_shift_incr_set (rows : List Schedule)
    (scheduleID oldPosition np : Int) (hx : np < oldPosition) :
    (rows.map (fun r =>
      if np ≤ r.schedulePosition ∧ r.schedulePosition < oldPosition then
        { r with schedulePosition := r.schedulePosition + 1 }
      else r)).map (fun r =>
        if r.id == scheduleID then { r with schedulePosition := np } else r) =
    rows.map (moveRow scheduleID oldPosition np) := by
  rw [List.map_map]
  apply List.map_congr_left
  intro r _
  simp only [Function.comp_apply, moveRow, if_pos hx]
  by_cases hid : (r.id == scheduleID) = true
  · split <;> simp [hid]
  · split <;> simp [hid]

theorem map_shift_decr_set (rows : List Schedule)
    (scheduleID oldPosition np : Int) (hx : ¬np < oldPosition) :
    (rows.map (fun r =>
      if oldPosition < r.schedulePosition ∧ r.schedulePosition ≤ np then
        { r with schedulePosition := r.schedulePosition - 1 }
      else r)).map (fun r =>
        if r.id == scheduleID then { r with schedulePosition := np } else r) =
    rows.map (moveRow scheduleID oldPosition np) := by
  rw [List.map_map]
  apply List.map_congr_left
  intro r _
  simp only [Function.comp_apply, moveRow, if_neg hx]
  by_cases hid : (r.id == scheduleID) = true
  · split <;> simp [hid]
  · split <;> simp [hid]

/-! ## C5: reorder density -/

/-- C5 counterexample: starting from a dense one-row schedule, a successful
`bulk_reorder` sending the only row to position `5` leaves positions `[5]`,
which is not the contiguous range `[0, 0]` — so bulk reorder does not
preserve density. -/
theorem C5_counterexample_bulk_reorder_not_dense :
    densePositions dbSW.schedule ∧
    bulkReorderSchedule dbSW [(1, 5)] =
      .ok { dbSW with schedule :=
        [{ id := 1, fileID := "a", filePath := "a", schedulePosition := 5,
           isCurrent := 0, addedAt := 0 }] } ∧
    ¬densePositions
      [{ id := 1, fileID := "a", filePath := "a", schedulePosition := 5,
         isCurrent := 0, addedAt := 0 }] := by
  refine ⟨by decide, by decide, by decide⟩

/-- C5 (amended): starting from a schedule with contiguous positions
`[0, n-1]` and distinct row ids, every successful `reorder` and every
successful `remove_by_id` leaves the remaining positions a contiguous
`[0, n-1]` range with no gaps and no duplicates; `bulk_reorder` instead
writes exactly the requested positions and does not guarantee density. -/
theorem C5_reorder_density (db : DB) (hd : densePositions db.schedule)
    (hnd : (db.schedule.map Schedule.id).Nodup) :
    ReorderDensitySpec db := by
  constructor
  · intro sid np db2 hok
    unfold updateSchedulePosition at hok
    by_cases hneg : np < 0
    · rw [if_pos hneg] at hok
      exact Except.noConfusion hok
    rw [if_neg hneg] at hok
    cases hfind : db.schedule.find? (fun r => r.id == sid) with
    | none =>
      simp only [hfind] at hok
      exact Except.noConfusion hok
    | some item =>
      simp only [hfind] at hok
      have hmem := List.mem_of_find?_eq_some hfind
      have hids : item.id = sid := by simpa using List.find?_some hfind
      have hn1 : 1 ≤ db.schedule.length := List.length_pos_of_mem hmem
      by_cases hbe : item.schedulePosition = np
      · simp only [hbe, beq_self_eq_true, if_true, Except.ok.injEq] at hok
        rw [← hok]
        exact hd
      · have hbeq : (item.schedulePosition == np) = false :=
          beq_eq_false_iff_ne.mpr hbe
        simp only [hbeq, Bool.false_eq_true, if_false] at hok
        by_cases hcl : (db.schedule.length : Int) ≤ np
        · simp only [if_pos hcl] at hok
          by_cases hlt2 : (db.schedule.length : Int) - 1 <
              item.schedulePosition
          · rw [if_pos hlt2, map_shift_incr_set db.schedule sid
              item.schedulePosition _ hlt2, Except.ok.injEq] at hok
            rw [← hok]
            exact densePositions_moveRow db.schedule sid item hmem hids hd
              hnd _ (by omega) (by omega)
          · rw [if_neg hlt2, map_shift_decr_set db.schedule sid
              item.schedulePosition _ hlt2, Except.ok.injEq] at hok
            rw [← hok]
            exact densePositions_moveRow db.schedule sid item hmem hids hd
              hnd _ (by omega) (by omega)
        · simp only [if_neg hcl] at hok
          by_cases hlt2 : np < item.schedulePosition
          · rw [if_pos hlt2, map_shift_incr_set db.schedule sid
              item.schedulePosition _ hlt2, Except.ok.injEq] at hok
            rw [← hok]
            exact densePositions_moveRow db.schedule sid item hmem hids hd
              hnd _ (by omega) (by omega)
          · rw [if_neg hlt2, map_shift_decr_set db.schedule sid
              item.schedulePosition _ hlt2, Except.ok.injEq] at hok
            rw [← hok]
            exact densePositions_moveRow db.schedule sid item hmem hids hd
              hnd _ (by omega) (by omega)
  · intro sid db2 hok
    unfold removeFromScheduleByID at hok
    cases hfind : db.schedule.find? (fun r => r.id == sid) with
    | none =>
      simp only [hfind] at hok
      exact Except.noConfusion hok
    | some item =>
      simp only [hfind, Except.ok.injEq] at hok
      have hmem := List.mem_of_find?_eq_some hfind
      have hids : item.id = sid := by simpa using List.find?_some hfind
      rw [← hok]
      exact densePositions_removeRow db.schedule sid item hmem hids hd hnd

/-- Witness for C5 at the concrete fixture. -/
theorem C5_reorder_density_witness :
    densePositions dbSW.schedule ∧
    (dbSW.schedule.map Schedule.id).Nodup ∧
    ReorderDensitySpec dbSW :=
  ⟨by decide, by decide, C5_reorder_density dbSW (by decide) (by decide)⟩

/-! ## C6: reorder moves one item; negative positions are rejected -/

/-- C6 counterexample: the claim says an out-of-range `new_position`,
including a negative one, is clamped rather than rejected; but on a one-row
schedule the call with `new_position = -1` is rejected with an error and no
`.ok` state exists (while the clamped target, position `0`, would have been a
successful no-op). -/
theorem C6_counterexample_negative_rejected :
    updateSchedulePosition dbSW 1 (-1) = .error .positionNegative ∧
    (∀ db2, updateSchedulePosition dbSW 1 (-1) ≠ .ok db2) ∧
    updateSchedulePosition dbSW 1 0 = .ok dbSW := by
  refine ⟨by decide, ?_, by decide⟩
  intro db2 h
  rw [show updateSchedulePosition dbSW 1 (-1) = .error .positionNegative
    from by decide] at h
  exact absurd h (by simp)

/-- C6 (amended): `reorder` moves exactly the identified row to the requested
position, shifting only the rows between the old and new position by ±1; a
position at or beyond the end is clamped to `count - 1`, while a negative
position is rejected with an error (not clamped). -/
theorem C6_reorder_moves_one_item (db : DB) (scheduleID newPosition : Int) :
    ReorderMoveSpec db scheduleID newPosition := by
  intro item hfind
  refine ⟨?_, ?_, ?_⟩
  · intro hneg
    unfold updateSchedulePosition
    rw [if_pos hneg]
  · intro hnneg heq
    have h0 : ¬newPosition < 0 := by omega
    simp only [updateSchedulePosition, if_neg h0, hfind, heq,
      beq_self_eq_true, if_true]
  · intro hnneg hne
    have h0 : ¬newPosition < 0 := by omega
    have hbeq : (item.schedulePosition == newPosition) = false :=
      beq_eq_false_iff_ne.mpr hne
    simp only [updateSchedulePosition, if_neg h0, hfind, hbeq,
      Bool.false_eq_true, if_false]
    by_cases hlt : (if (db.schedule.length : Int) ≤ newPosition then
        (db.schedule.length : Int) - 1 else newPosition) <
          item.schedulePosition
    · rw [if_pos hlt,
        map_shift_incr_set db.schedule scheduleID item.schedulePosition _ hlt]
    · rw [if_neg hlt,
        map_shift_decr_set db.schedule scheduleID item.schedulePosition _ hlt]

/-- Witness for C6 at a concrete input (position beyond the end, clamped). -/
theorem C6_reorder_moves_one_item_witness : ReorderMoveSpec dbSW 1 5 :=
  C6_reorder_moves_one_item dbSW 1 5

/-! ## C8: schedule auto-population -/

theorem populateScheduleAux_eq (env : Env) (files : List AvailableFiles) :
    ∀ (i : Nat) (count : Nat) (db : DB),
      populateScheduleAux env i files count db =
        (count + (survivorRows env i db.nextScheduleID files).length,
         { db with
             schedule := db.schedule ++
               survivorRows env i db.nextScheduleID files,
             nextScheduleID := db.nextScheduleID +
               ((survivorRows env i db.nextScheduleID files).length : Int) }) := by
  induction files with
  | nil =>
    intro i count db
    simp [populateScheduleAux, survivorRows]
  | cons f rest ih =>
    intro i count db
    by_cases h : f.filePath ∈ env.disk
    · simp only [populateScheduleAux, survivorRows, if_pos h]
      rw [ih]
      simp only [Prod.mk.injEq, DB.mk.injEq, List.length_cons,
        List.append_assoc, List.singleton_append, true_and, and_true]
      constructor
      · omega
      · push_cast
        ring
    · simp only [populateScheduleAux, survivorRows, if_neg h]
      rw [ih]

theorem survivorRows_facts (env : Env) (files : List AvailableFiles) :
    ∀ (i : Nat) (base : Int), ∀ r ∈ survivorRows env i base files,
      r.isCurrent = 0 ∧ (i : Int) ≤ r.schedulePosition ∧ base ≤ r.id ∧
      r.filePath ∈ env.disk := by
  induction files with
  | nil =>
    intro i base r hr
    simp [survivorRows] at hr
  | cons f rest ih =>
    intro i base r hr
    by_cases h : f.filePath ∈ env.disk
    · rw [survivorRows, if_pos h] at hr
      rcases List.mem_cons.mp hr with h2 | h2
      · subst h2
        exact ⟨rfl, le_refl _, le_refl _, h⟩
      · obtain ⟨h3, h4, h5, h6⟩ := ih (i + 1) (base + 1) r h2
        refine ⟨h3, by push_cast at h4 ⊢; omega, by omega, h6⟩
    · rw [survivorRows, if_neg h] at hr
      obtain ⟨h3, h4, h5, h6⟩ := ih (i + 1) base r hr
      refine ⟨h3, by push_cast at h4 ⊢; omega, h5, h6⟩

theorem survivorRows_head_min (env : Env) (files : List AvailableFiles) :
    ∀ (i : Nat) (base : Int) (r0 : Schedule) (rest : List Schedule),
      survivorRows env i base files = r0 :: rest →
      (∀ s ∈ rest, r0.schedulePosition < s.schedulePosition) ∧
      (∀ s ∈ rest, r0.id < s.id) := by
  induction files with
  | nil =>
    intro i base r0 rest h
    simp [survivorRows] at h
  | cons f fs ih =>
    intro i base r0 rest h
    by_cases hf : f.filePath ∈ env.disk
    · rw [survivorRows, if_pos hf] at h
      injection h with h1 h2
      subst h2
      constructor
      · intro s hs
        obtain ⟨_, h4, _, _⟩ := survivorRows_facts env fs (i + 1) (base + 1) s hs
        rw [← h1]
        dsimp only
        push_cast at h4 ⊢
        omega
      · intro s hs
        obtain ⟨_, _, h5, _⟩ := survivorRows_facts env fs (i + 1) (base + 1) s hs
        rw [← h1]
        dsimp only
        omega
    · rw [survivorRows, if_neg hf] at h
      exact ih (i + 1) base r0 rest h

theorem firstByPos?_head (r0 : Schedule) (rest : List Schedule)
    (h : ∀ s ∈ rest, r0.schedulePosition < s.schedulePosition) :
    firstByPos? (r0 :: rest) = some r0 := by
  simp only [firstByPos?]
  cases hb : firstByPos? rest with
  | none => rfl
  | some b =>
    have hmem := firstByPos?_mem rest b hb
    show (if b.schedulePosition < r0.schedulePosition then some b
      else some r0) = some r0
    rw [if_neg (not_lt.mpr (le_of_lt (h b hmem)))]

theorem find?_isCurrent_none (rows : List Schedule)
    (h : ∀ r ∈ rows, r.isCurrent = 0) :
    rows.find? (fun r => r.isCurrent == 1) = none := by
  rw [List.find?_eq_none]
  intro x hx
  simp [h x hx]

/-- C8 (amended): when the queue has no pending item and the schedule is
empty, the Coordinator auto-populates the schedule with exactly the catalog
files that still exist on disk, in catalog order, each at its catalog
enumeration index as position (gaps appear when files are missing), retries
`next()` once and pushes the resulting item into the queue; an empty catalog
or no surviving file is an error for this cycle. -/
theorem C8_auto_population (env : Env) (db : DB) (hsched : db.schedule = []) :
    AutoFillSpec env db := by
  obtain ⟨av, sch, qs, hist, ns, nq, nh⟩ := db
  dsimp only at hsched
  subst hsched
  refine ⟨?_, ?_, ?_⟩
  · intro hav
    dsimp only at hav
    subst hav
    rfl
  · intro hav hsr
    dsimp only at hsr ⊢
    cases av with
    | nil => exact absurd rfl hav
    | cons f fs =>
      unfold autoFillQueueFromLibrary
      simp only [getNextFromSchedule, List.find?_nil, firstByPos?,
        List.isEmpty_cons, if_false, Bool.false_eq_true]
      rw [populateScheduleAux_eq]
      dsimp only
      rw [hsr]
      simp
  · intro r0 rest hsr
    dsimp only at hsr ⊢
    have hfacts : ∀ r ∈ r0 :: rest, r.isCurrent = 0 ∧ (0 : Int) ≤ r.schedulePosition ∧ ns ≤ r.id ∧ r.filePath ∈ env.disk := by
      rw [← hsr]
      exact fun r hr => by
        have := survivorRows_facts env av 0 ns r hr
        simpa using this
    have hmin := survivorRows_head_min env av 0 ns r0 rest hsr
    cases av with
    | nil => simp [survivorRows] at hsr
    | cons f fs =>
      unfold autoFillQueueFromLibrary
      simp only [getNextFromSchedule, List.find?_nil, firstByPos?,
        List.isEmpty_cons, if_false, Bool.false_eq_true]
      rw [populateScheduleAux_eq]
      dsimp only
      rw [hsr]
      simp only [List.nil_append, List.length_cons, Nat.zero_add]
      rw [show ((rest.length + 1 == 0) = false) from by simp]
      simp only [Bool.false_eq_true, if_false]
      rw [find?_isCurrent_none (r0 :: rest) (fun r hr => (hfacts r hr).1)]
      rw [firstByPos?_head r0 rest hmin.1]
      simp only [autoFillInsert, Schedule.markAsCurrent]
      rw [if_pos (hfacts r0 (List.mem_cons_self r0 rest)).2.2.2]
      rfl


/-- C8 counterexample: with catalog `[a (missing), b (on disk)]` and an empty
schedule, auto-fill succeeds but the surviving file `b` is inserted at
position `1` (its catalog index), leaving a gap at position `0` — the
resulting positions are not consecutive. -/
theorem C8_counterexample_gap_positions :
    (autoFillQueueFromLibrary envG dbG).1 = none ∧
    (autoFillQueueFromLibrary envG dbG).2.schedule.map
      Schedule.schedulePosition = [1] ∧
    ¬densePositions (autoFillQueueFromLibrary envG dbG).2.schedule := by
  refine ⟨by decide, by decide, by decide⟩

/-- Witness for C8 at the concrete fixture. -/
theorem C8_auto_population_witness :
    (dbG.schedule = []) ∧ AutoFillSpec envG dbG :=
  ⟨rfl, C8_auto_population envG dbG rfl⟩

/-! ## C1: anti-livelock of the consumer loop under playback failures -/

theorem minPending?_mem (l : List VideoQueue) (r : VideoQueue)
    (h : minPending? l = some r) : r ∈ l := by
  induction l generalizing r with
  | nil => simp [minPending?] at h
  | cons x xs ih =>
    simp only [minPending?] at h
    split at h
    · simp only [Option.some.injEq] at h
      subst h
      exact List.mem_cons_self _ _
    · rename_i b heq
      split at h
      · simp only [Option.some.injEq] at h
        subst h
        exact List.mem_cons_of_mem x (ih _ heq)
      · simp only [Option.some.injEq] at h
        subst h
        exact List.mem_cons_self _ _

theorem minPending?_eq_none (l : List VideoQueue) :
    minPending? l = none ↔ l = [] := by
  induction l with
  | nil => simp [minPending?]
  | cons r rs ih =>
    simp only [minPending?]
    constructor
    · intro hx
      split at hx
      · exact absurd hx (by simp)
      · split at hx <;> exact absurd hx (by simp)
    · intro hx
      exact absurd hx (by simp)

theorem nextPending?_facts (rows : List VideoQueue) (v : VideoQueue)
    (h : nextPending? rows = some v) : v ∈ rows ∧ v.played = 0 := by
  unfold nextPending? at h
  have hm := minPending?_mem _ _ h
  obtain ⟨h1, h2⟩ := List.mem_filter.mp hm
  exact ⟨h1, by simpa using h2⟩

theorem nextPending?_some_of_count (rows : List VideoQueue)
    (h : unplayedCount rows ≠ 0) : ∃ v, nextPending? rows = some v := by
  unfold nextPending?
  cases hm : minPending? (rows.filter (fun r => r.played == 0)) with
  | none =>
    rw [minPending?_eq_none] at hm
    unfold unplayedCount at h
    rw [hm] at h
    simp at h
  | some v => exact ⟨v, rfl⟩

theorem unplayedCount_cons (y : VideoQueue) (l : List VideoQueue) :
    unplayedCount (y :: l) =
      (if (y.played == 0) = true then 1 else 0) + unplayedCount l := by
  unfold unplayedCount
  rw [List.filter_cons]
  split <;> simp <;> omega

theorem unplayedCount_update_le (rows : List VideoQueue) (v : VideoQueue)
    (now : Int) :
    unplayedCount (updateQueueByID rows (VideoQueue.markAsPlayed now v)) ≤
      unplayedCount rows := by
  induction rows with
  | nil => exact le_refl _
  | cons x xs ih =>
    show unplayedCount
      ((if x.id == (VideoQueue.markAsPlayed now v).id then
        VideoQueue.markAsPlayed now v else x) ::
        updateQueueByID xs (VideoQueue.markAsPlayed now v)) ≤ _
    rw [unplayedCount_cons, unplayedCount_cons x xs]
    by_cases hx : (x.id == (VideoQueue.markAsPlayed now v).id) = true
    · rw [if_pos hx]
      have h1 : (((VideoQueue.markAsPlayed now v)).played == 0) = false := by
        simp [VideoQueue.markAsPlayed]
      rw [h1]
      simp only [Bool.false_eq_true, if_false]
      split <;> omega
    · rw [if_neg hx]
      split <;> omega

theorem unplayedCount_update_lt (rows : List VideoQueue) (v : VideoQueue)
    (hv : v ∈ rows) (hp : v.played = 0) (now : Int) :
    unplayedCount (updateQueueByID rows (VideoQueue.markAsPlayed now v)) <
      unplayedCount rows := by
  induction rows with
  | nil => cases hv
  | cons x xs ih =>
    show unplayedCount
      ((if x.id == (VideoQueue.markAsPlayed now v).id then
        VideoQueue.markAsPlayed now v else x) ::
        updateQueueByID xs (VideoQueue.markAsPlayed now v)) < _
    rw [unplayedCount_cons, unplayedCount_cons x xs]
    rcases List.mem_cons.mp hv with h2 | h2
    · subst h2
      have hhead : (if v.id == (VideoQueue.markAsPlayed now v).id then
          VideoQueue.markAsPlayed now v else v) =
          VideoQueue.markAsPlayed now v := by
        simp [VideoQueue.markAsPlayed]
      rw [hhead]
      have h1 : (((VideoQueue.markAsPlayed now v)).played == 0) = false := by
        simp [VideoQueue.markAsPlayed]
      have h2b : (v.played == 0) = true := by simpa using hp
      rw [h1, h2b]
      simp only [Bool.false_eq_true, if_false, if_true]
      have hle := unplayedCount_update_le xs v now
      omega
    · have hlt := ih h2
      by_cases hx : (x.id == (VideoQueue.markAsPlayed now v).id) = true
      · rw [if_pos hx]
        have h1 : (((VideoQueue.markAsPlayed now v)).played == 0) = false := by
          simp [VideoQueue.markAsPlayed]
        rw [h1]
        simp only [Bool.false_eq_true, if_false]
        split <;> omega
      · rw [if_neg hx]
        split <;> omega
theorem autoFill_queue_effect (env : Env) (db : DB) :
    ((autoFillQueueFromLibrary env db).2.queue = db.queue ∧
     (autoFillQueueFromLibrary env db).2.nextQueueID = db.nextQueueID) ∨
    (∃ item : VideoQueue,
      (autoFillQueueFromLibrary env db).2.queue = db.queue ++ [item] ∧
      item.id = db.nextQueueID ∧ item.played = 0 ∧
      (autoFillQueueFromLibrary env db).2.nextQueueID = db.nextQueueID + 1) := by
  unfold autoFillQueueFromLibrary autoFillInsert
  dsimp only
  rw [populateScheduleAux_eq]
  split
  · split
    · right
      exact ⟨_, rfl, rfl, rfl, rfl⟩
    · left
      exact ⟨rfl, rfl⟩
  · split
    · left
      exact ⟨rfl, rfl⟩
    · split
      · left
        exact ⟨rfl, rfl⟩
      · split
        · split
          · right
            exact ⟨_, rfl, rfl, rfl, rfl⟩
          · left
            exact ⟨rfl, rfl⟩
        · left
          exact ⟨rfl, rfl⟩
theorem updateQueueByID_map_id (rows : List VideoQueue) (u : VideoQueue) :
    (updateQueueByID rows u).map VideoQueue.id = rows.map VideoQueue.id := by
  unfold updateQueueByID
  rw [List.map_map]
  apply List.map_congr_left
  intro x _
  simp only [Function.comp_apply]
  split
  · rename_i h
    have h2 : x.id = u.id := by simpa using h
    exact h2.symm
  · rfl

theorem videoPlayerStep_pending_queue (env : Env) (db : DB) (ps : PlayerState)
    (v : VideoQueue) (hv : nextPending? db.queue = some v) :
    (videoPlayerStep env db ps .failure).1.queue =
      updateQueueByID db.queue (VideoQueue.markAsPlayed env.now v) ∧
    (videoPlayerStep env db ps .failure).1.nextQueueID = db.nextQueueID := by
  constructor
  · show (videoPlayerStep env db ps .failure).1.queue = _
    simp only [videoPlayerStep, hv, playVideo]
  · show (videoPlayerStep env db ps .failure).1.nextQueueID = _
    simp only [videoPlayerStep, hv, playVideo]

theorem videoPlayerStep_pending_history (env : Env) (db : DB)
    (ps : PlayerState) (v : VideoQueue)
    (hv : nextPending? db.queue = some v)
    (hwfh : ∀ x ∈ db.history, x.id < db.nextHistoryID) :
    ∃ h, (videoPlayerStep env db ps .failure).1.history = db.history ++ [h] ∧
      h.skipRequested = 1 ∧ h.finishedAt = env.now ∧ h.fileID = v.fileID := by
  simp only [videoPlayerStep, hv, playVideo]
  exact ⟨_, updateHistoryByID_append_fresh db.history _ _
    (fun x hx => by
      have h2 := hwfh x hx
      show ¬(x.id = db.nextHistoryID)
      omega) rfl, rfl, rfl, rfl⟩

theorem videoPlayerStep_none_queue (env : Env) (db : DB) (ps : PlayerState)
    (hv : nextPending? db.queue = none) :
    (videoPlayerStep env db ps .failure).1 =
      (autoFillQueueFromLibrary env db).2 := by
  simp only [videoPlayerStep, hv]

theorem step_wfQueue (env : Env) (db : DB) (ps : PlayerState)
    (hid : ∀ q ∈ db.queue, q.id < db.nextQueueID)
    (hbin : ∀ q ∈ db.queue, q.played = 0 ∨ q.played = 1) :
    (∀ q ∈ (videoPlayerStep env db ps .failure).1.queue,
      q.id < (videoPlayerStep env db ps .failure).1.nextQueueID) ∧
    (∀ q ∈ (videoPlayerStep env db ps .failure).1.queue,
      q.played = 0 ∨ q.played = 1) := by
  cases hv : nextPending? db.queue with
  | some v =>
    obtain ⟨hq, hn⟩ := videoPlayerStep_pending_queue env db ps v hv
    rw [hq, hn]
    constructor
    · intro q hq2
      obtain ⟨x, hx, hxq⟩ := List.mem_map.mp hq2
      split at hxq
      · rw [← hxq]
        exact hid v (nextPending?_facts db.queue v hv).1
      · rw [← hxq]
        exact hid x hx
    · intro q hq2
      obtain ⟨x, hx, hxq⟩ := List.mem_map.mp hq2
      split at hxq
      · rw [← hxq]
        right
        rfl
      · rw [← hxq]
        exact hbin x hx
  | none =>
    rw [videoPlayerStep_none_queue env db ps hv]
    rcases autoFill_queue_effect env db with ⟨hq, hn⟩ | ⟨item, hq, hi, hp, hn⟩
    · rw [hq, hn]
      exact ⟨hid, hbin⟩
    · rw [hq, hn]
      constructor
      · intro q hq2
        rcases List.mem_append.mp hq2 with h2 | h2
        · have := hid q h2
          omega
        · rw [List.mem_singleton] at h2
          subst h2
          omega
      · intro q hq2
        rcases List.mem_append.mp hq2 with h2 | h2
        · exact hbin q h2
        · rw [List.mem_singleton] at h2
          subst h2
          left
          exact hp
theorem step_preserves_played_at (env : Env) (db : DB) (ps : PlayerState)
    (i : Int) (hid : ∀ q ∈ db.queue, q.id < db.nextQueueID)
    (hmem : i ∈ db.queue.map VideoQueue.id)
    (hall : ∀ q ∈ db.queue, q.id = i → q.played = 1) :
    i ∈ (videoPlayerStep env db ps .failure).1.queue.map VideoQueue.id ∧
    ∀ q ∈ (videoPlayerStep env db ps .failure).1.queue,
      q.id = i → q.played = 1 := by
  cases hv : nextPending? db.queue with
  | some v =>
    obtain ⟨hq, hn⟩ := videoPlayerStep_pending_queue env db ps v hv
    rw [hq]
    constructor
    · rw [updateQueueByID_map_id]
      exact hmem
    · intro q hq2 hqi
      obtain ⟨x, hx, hxq⟩ := List.mem_map.mp hq2
      split at hxq
      · rw [← hxq]
        rfl
      · rw [← hxq]
        rw [← hxq] at hqi
        exact hall x hx hqi
  | none =>
    rw [videoPlayerStep_none_queue env db ps hv]
    obtain ⟨q0, hq0, hq0i⟩ := List.mem_map.mp hmem
    have hibound : i < db.nextQueueID := hq0i ▸ hid q0 hq0
    rcases autoFill_queue_effect env db with ⟨hq, hn⟩ | ⟨item, hq, hi2, hp, hn⟩
    · rw [hq]
      exact ⟨hmem, hall⟩
    · rw [hq]
      constructor
      · rw [List.map_append]
        exact List.mem_append_left _ hmem
      · intro q hq2 hqi
        rcases List.mem_append.mp hq2 with h2 | h2
        · exact hall q h2 hqi
        · rw [List.mem_singleton] at h2
          subst h2
          rw [hqi] at hi2
          omega
theorem iter_preserves_played_at (env : Env) (m : Nat) :
    ∀ (db : DB) (ps : PlayerState) (i : Int),
      (∀ q ∈ db.queue, q.id < db.nextQueueID) →
      (∀ q ∈ db.queue, q.played = 0 ∨ q.played = 1) →
      i ∈ db.queue.map VideoQueue.id →
      (∀ q ∈ db.queue, q.id = i → q.played = 1) →
      ∀ q ∈ (videoPlayerIter env .failure m (db, ps)).1.queue,
        q.id = i → q.played = 1 := by
  induction m with
  | zero =>
    intro db ps i hid hbin hmem hall q hq hqi
    exact hall q hq hqi
  | succ m ih =>
    intro db ps i hid hbin hmem hall q hq hqi
    obtain ⟨hwf1, hwf2⟩ := step_wfQueue env db ps hid hbin
    obtain ⟨hmem2, hall2⟩ := step_preserves_played_at env db ps i hid hmem hall
    rw [show videoPlayerIter env .failure (m + 1) (db, ps) =
      videoPlayerIter env .failure m
        (videoPlayerStep env db ps .failure) from rfl] at hq
    exact ih (videoPlayerStep env db ps .failure).1
      (videoPlayerStep env db ps .failure).2 i hwf1 hwf2 hmem2 hall2 q hq hqi

theorem iter_all_played (env : Env) (m : Nat) :
    ∀ (db : DB) (ps : PlayerState),
      (∀ q ∈ db.queue, q.id < db.nextQueueID) →
      (∀ q ∈ db.queue, q.played = 0 ∨ q.played = 1) →
      unplayedCount db.queue ≤ m →
      ∀ i ∈ db.queue.map VideoQueue.id,
        ∀ q ∈ (videoPlayerIter env .failure m (db, ps)).1.queue,
          q.id = i → q.played = 1 := by
  induction m with
  | zero =>
    intro db ps hid hbin hcnt i hi q hq hqi
    have hz : unplayedCount db.queue = 0 := by omega
    rcases hbin q hq with h0 | h1
    · exfalso
      have : q ∈ db.queue.filter (fun r => r.played == 0) :=
        List.mem_filter.mpr ⟨hq, by simpa using h0⟩
      unfold unplayedCount at hz
      rw [List.length_eq_zero.mp hz] at this
      cases this
    · exact h1
  | succ m ih =>
    intro db ps hid hbin hcnt i hi q hq hqi
    by_cases hz : unplayedCount db.queue = 0
    · have hall : ∀ q2 ∈ db.queue, q2.id = i → q2.played = 1 := by
        intro q2 hq2 _
        rcases hbin q2 hq2 with h0 | h1
        · exfalso
          have : q2 ∈ db.queue.filter (fun r => r.played == 0) :=
            List.mem_filter.mpr ⟨hq2, by simpa using h0⟩
          unfold unplayedCount at hz
          rw [List.length_eq_zero.mp hz] at this
          cases this
        · exact h1
      exact iter_preserves_played_at env (m + 1) db ps i hid hbin hi hall
        q hq hqi
    · obtain ⟨v, hv⟩ := nextPending?_some_of_count db.queue hz
      obtain ⟨hvm, hvp⟩ := nextPending?_facts db.queue v hv
      obtain ⟨hwf1, hwf2⟩ := step_wfQueue env db ps hid hbin
      obtain ⟨hq2, hn2⟩ := videoPlayerStep_pending_queue env db ps v hv
      have hcnt2 : unplayedCount
          (videoPlayerStep env db ps .failure).1.queue ≤ m := by
        rw [hq2]
        have := unplayedCount_update_lt db.queue v hvm hvp env.now
        omega
      have hmem2 : i ∈ (videoPlayerStep env db ps .failure).1.queue.map
          VideoQueue.id := by
        rw [hq2, updateQueueByID_map_id]
        exact hi
      rw [show videoPlayerIter env .failure (m + 1) (db, ps) =
        videoPlayerIter env .failure m
          (videoPlayerStep env db ps .failure) from rfl] at hq
      exact ih (videoPlayerStep env db ps .failure).1
        (videoPlayerStep env db ps .failure).2 hwf1 hwf2 hcnt2 i hmem2
        q hq hqi
/-- C1: on a failing play-step the consumer loop finalizes the item's
history record as skipped with `finished_at` set and forces the queue row to
`played = 1`; iterating the loop under any all-failure schedule, every queue
row present at the start is `played = 1` after at most `unplayedCount` many
iterations and stays played forever after. -/
theorem C1_anti_livelock (env : Env) (db : DB) (ps : PlayerState)
    (hwf : db.wfQueue)
    (hwfh : ∀ x ∈ db.history, x.id < db.nextHistoryID) :
    AntiLivelockSpec env db ps := by
  obtain ⟨hid, hbin⟩ := hwf
  constructor
  · intro v hv
    constructor
    · exact videoPlayerStep_pending_history env db ps v hv hwfh
    · intro q hq hqi
      obtain ⟨hq2, hn2⟩ := videoPlayerStep_pending_queue env db ps v hv
      rw [hq2] at hq
      obtain ⟨x, hx, hxq⟩ := List.mem_map.mp hq
      split at hxq
      · rw [← hxq]
        rfl
      · rename_i hxid
        rw [← hxq] at hqi
        exact absurd hqi (by simpa [VideoQueue.markAsPlayed] using hxid)
  · intro m hcnt i hi q hq hqi
    exact iter_all_played env m db ps hid hbin hcnt i hi q hq hqi

/-- Witness for C1 at the concrete fixture. -/
theorem C1_anti_livelock_witness :
    dbPW.wfQueue ∧ (∀ x ∈ dbPW.history, x.id < dbPW.nextHistoryID) ∧
    AntiLivelockSpec envW dbPW psW :=
  ⟨⟨by decide, by decide⟩, by decide,
   C1_anti_livelock envW dbPW psW ⟨by decide, by decide⟩ (by decide)⟩

end TvStreamer
